import Mathlib

/-!
# BlockFS directory and writer: a shallow embedding

This file embeds the core of the `blockfs` storage engine in Lean:

* the directory parameters and the default-stride computation of
  `Directory.__init__` (`src/blockfs/directory.py`),
* the bit-packed directory-entry codec
  (`encode_directory_entry` / `decode_directory_entry`),
* the address arithmetic (`offsetof`, `get_block_size`),
* the shard writer loop (`block_writer_process`, `src/blockfs/writer.py`),
* the index writer loop (`directory_writer_process`),
* the `create` on-disk header layout and the `read_block` read path,
* a sequential model of the write-then-close-then-read pipeline.

Machine integers are modelled as `Nat` (Python integers are unbounded, and
the on-disk fields carry explicit masks).  Byte files are `List Nat`
(each element a byte value).  The external Blosc codec is abstracted as a
pair of functions `enc` / `dec` on flattened voxel lists; properties that
depend on it take the codec as a parameter together with the facts the
code relies on (round-trip, non-empty output).
-/

namespace BlockFS

/-- The parameters held by a `Directory` object after `__init__` has run:
extents, block sizes, strides, bit widths, the byte offset of the
directory table in the index file (`directory_offset`), and the number of
block (shard) files. -/
structure DirParams where
  xExtent : Nat
  yExtent : Nat
  zExtent : Nat
  xBlockSize : Nat
  yBlockSize : Nat
  zBlockSize : Nat
  xStride : Nat
  yStride : Nat
  zStride : Nat
  nOffsetBits : Nat
  nSizeBits : Nat
  directoryOffset : Nat
  nFilenames : Nat
deriving Repr, DecidableEq

/-- Default x stride of `Directory.__init__` when `x_stride is None`. -/
def default_x_stride : Nat := 1

/-- Default y stride of `Directory.__init__`,
`(x_extent + x_block_size - 1) // x_block_size`. -/
def default_y_stride (x_extent x_block_size : Nat) : Nat :=
  (x_extent + x_block_size - 1) / x_block_size

/-- Default z stride of `Directory.__init__`, literally
`(y_stride * y_extent + y_block_size - 1) // y_block_size`. -/
def default_z_stride (y_stride y_extent y_block_size : Nat) : Nat :=
  (y_stride * y_extent + y_block_size - 1) / y_block_size

/-- Modelled from the spec: the intended default z stride,
`sz = sy * ceil(Y / by)` (the spec's canonical x-minor, z-major row-major
layout over the block grid). -/
def spec_default_z_stride (y_stride y_extent y_block_size : Nat) : Nat :=
  y_stride * ((y_extent + y_block_size - 1) / y_block_size)

/-- Build `DirParams` the way `Directory.__init__` does when no strides are
supplied: `x_stride = 1`, `y_stride = ceil(X/bx)`, and the z stride from
the source's formula.  Bit widths, directory offset and shard count are
the remaining constructor inputs. -/
def mkDefaultParams (X Y Z bx by_ bz no ns dirOff nFiles : Nat) : DirParams :=
  let xs := default_x_stride
  let ys := default_y_stride X bx
  let zs := default_z_stride ys Y by_
  ⟨X, Y, Z, bx, by_, bz, xs, ys, zs, no, ns, dirOff, nFiles⟩

/-- The entry width `directory_entry_size = (n_offset_bits + n_size_bits + 7) // 8`. -/
def directory_entry_size (p : DirParams) : Nat :=
  (p.nOffsetBits + p.nSizeBits + 7) / 8

/-- The byte-store loop of `Directory.encode_directory_entry`:
`for idx in range(n): a[idx] = v & 0xff; v >>= 8`, returned as the list of
bytes written. -/
def encodeBytes : Nat → Nat → List Nat
  | 0, _ => []
  | n + 1, v => (v &&& 0xff) :: encodeBytes n (v >>> 8)

/-- The body of `Directory.encode_directory_entry`: serialize
`offset + size * 2 ** n_offset_bits` into `directory_entry_size` bytes,
least-significant byte first. -/
def encode_directory_entry (p : DirParams) (offset size : Nat) : List Nat :=
  encodeBytes (directory_entry_size p) (offset + size * 2 ^ p.nOffsetBits)

/-- The accumulation loop of `Directory.decode_directory_entry`:
`for b in a: accumulator += b * pow; pow *= 256`. -/
def accumulateBytes : List Nat → Nat → Nat → Nat
  | [], accumulator, _ => accumulator
  | b :: rest, accumulator, pw => accumulateBytes rest (accumulator + b * pw) (pw * 256)

/-- The body of `Directory.decode_directory_entry`: little-endian accumulate, then
`offset = acc & ((1 << n_offset_bits) - 1)` and
`size = (acc >> n_offset_bits) & ((1 << n_size_bits) - 1)`. -/
def decode_directory_entry (p : DirParams) (a : List Nat) : Nat × Nat :=
  let accumulator := accumulateBytes a 0 1
  (accumulator &&& ((1 <<< p.nOffsetBits) - 1),
   (accumulator >>> p.nOffsetBits) &&& ((1 <<< p.nSizeBits) - 1))

/-- Little-endian value of a byte list; the state-free form of
`accumulateBytes`. -/
def bytesValue : List Nat → Nat
  | [] => 0
  | b :: rest => b + 256 * bytesValue rest

theorem accumulateBytes_eq (l : List Nat) :
    ∀ accumulator pw, accumulateBytes l accumulator pw =
      accumulator + pw * bytesValue l := by
  induction l with
  | nil => intro acc pw; simp [accumulateBytes, bytesValue]
  | cons b rest ih =>
      intro acc pw
      simp only [accumulateBytes, bytesValue, ih]
      ring

theorem encodeBytes_length (n v : Nat) : (encodeBytes n v).length = n := by
  induction n generalizing v with
  | zero => rfl
  | succ n ih => simp [encodeBytes, ih]

theorem bytesValue_encodeBytes (n : Nat) :
    ∀ v, bytesValue (encodeBytes n v) = v % 256 ^ n := by
  induction n with
  | zero => intro v; simp [encodeBytes, bytesValue, Nat.mod_one]
  | succ n ih =>
      intro v
      have hand : v &&& 0xff = v % 256 := by
        have := Nat.and_pow_two_sub_one_eq_mod v 8
        norm_num at this
        exact this
      have hshift : v >>> 8 = v / 256 := by
        have := Nat.shiftRight_eq_div_pow v 8
        norm_num at this
        exact this
      have hpow : (256 : Nat) ^ (n + 1) = 256 * 256 ^ n := by
        rw [pow_succ, Nat.mul_comm]
      simp only [encodeBytes, bytesValue, ih, hand, hshift, hpow]
      exact (Nat.mod_mul).symm

theorem one_shiftLeft_eq (k : Nat) : (1 <<< k : Nat) = 2 ^ k := by
  rw [Nat.shiftLeft_eq, one_mul]

theorem entry_size_bits (p : DirParams) :
    p.nOffsetBits + p.nSizeBits ≤ 8 * directory_entry_size p := by
  have h1 := Nat.div_add_mod (p.nOffsetBits + p.nSizeBits + 7) 8
  have h2 : (p.nOffsetBits + p.nSizeBits + 7) % 8 < 8 :=
    Nat.mod_lt _ (by norm_num)
  unfold directory_entry_size
  omega

/-- C2: for every pair `(offset, size)` with `offset < 2^n_offset_bits` and
`size < 2^n_size_bits`, encoding into a `directory_entry_size`-byte buffer
and decoding returns exactly `(offset, size)`. -/
theorem entry_roundtrip (p : DirParams) (offset size : Nat)
    (ho : offset < 2 ^ p.nOffsetBits) (hs : size < 2 ^ p.nSizeBits) :
    decode_directory_entry p (encode_directory_entry p offset size) =
      (offset, size) := by
  set v := offset + size * 2 ^ p.nOffsetBits with hv
  have hvlt : v < 2 ^ (p.nOffsetBits + p.nSizeBits) := by
    have h1 : v < (1 + size) * 2 ^ p.nOffsetBits := by
      rw [add_mul, one_mul]; omega
    have h2 : 1 + size ≤ 2 ^ p.nSizeBits := by omega
    calc v < (1 + size) * 2 ^ p.nOffsetBits := h1
      _ ≤ 2 ^ p.nSizeBits * 2 ^ p.nOffsetBits := Nat.mul_le_mul_right _ h2
      _ = 2 ^ (p.nOffsetBits + p.nSizeBits) := by rw [← pow_add, Nat.add_comm]
  have hv256 : v < 256 ^ directory_entry_size p := by
    have h256 : (256 : Nat) ^ directory_entry_size p =
        2 ^ (8 * directory_entry_size p) := by
      rw [pow_mul]; norm_num
    rw [h256]
    exact lt_of_lt_of_le hvlt
      (Nat.pow_le_pow_right (by norm_num) (entry_size_bits p))
  have hacc : accumulateBytes (encode_directory_entry p offset size) 0 1 = v := by
    rw [encode_directory_entry, accumulateBytes_eq, bytesValue_encodeBytes]
    simpa using Nat.mod_eq_of_lt hv256
  have hpow : (0 : Nat) < 2 ^ p.nOffsetBits := Nat.pos_pow_of_pos _ (by norm_num)
  have hoff : v &&& (2 ^ p.nOffsetBits - 1) = offset := by
    rw [Nat.and_pow_two_sub_one_eq_mod, hv, Nat.add_mul_mod_self_right,
        Nat.mod_eq_of_lt ho]
  have hdiv : v / 2 ^ p.nOffsetBits = size := by
    rw [hv, Nat.add_mul_div_right _ _ hpow, Nat.div_eq_of_lt ho, Nat.zero_add]
  have hsz : (v >>> p.nOffsetBits) &&& (2 ^ p.nSizeBits - 1) = size := by
    rw [Nat.shiftRight_eq_div_pow, hdiv, Nat.and_pow_two_sub_one_eq_mod,
        Nat.mod_eq_of_lt hs]
  simp only [decode_directory_entry, hacc, one_shiftLeft_eq]
  rw [hoff, hsz]

/-- A concrete parameter set matching the repository's default sizing for a
`1024³`-voxel, `uint16`, `64³`-block store: 32 offset bits, 24 size bits,
hence 7-byte directory entries. -/
def entryP : DirParams := ⟨1024, 1024, 1024, 64, 64, 64, 1, 16, 256, 32, 24, 16, 1⟩

theorem entry_roundtrip_witness :
    decode_directory_entry entryP (encode_directory_entry entryP 524304 524304) =
      (524304, 524304) :=
  entry_roundtrip entryP 524304 524304 (by decide) (by decide)

/-- C10: decoding any directory-entry buffer yields `(offset, size)` with
`offset < 2^n_offset_bits` and `size < 2^n_size_bits`, because of the two
masks applied in `decode_directory_entry`. -/
theorem decode_in_range (p : DirParams) (a : List Nat)
    (_hlen : a.length = directory_entry_size p) :
    (decode_directory_entry p a).1 < 2 ^ p.nOffsetBits ∧
    (decode_directory_entry p a).2 < 2 ^ p.nSizeBits := by
  constructor <;>
    · simp only [decode_directory_entry, one_shiftLeft_eq,
        Nat.and_pow_two_sub_one_eq_mod]
      exact Nat.mod_lt _ (Nat.pos_pow_of_pos _ (by norm_num))

theorem decode_in_range_witness :
    (decode_directory_entry entryP [171, 171, 171, 171, 171, 171, 171]).1 <
        2 ^ entryP.nOffsetBits ∧
    (decode_directory_entry entryP [171, 171, 171, 171, 171, 171, 171]).2 <
        2 ^ entryP.nSizeBits :=
  decode_in_range entryP _ (by rfl)

/-- The function `Directory.offsetof`: linear directory offset of the block containing
voxel `(x, y, z)`,
`x_stride * (x // bx) + y_stride * (y // by) + z_stride * (z // bz)`. -/
def offsetof (p : DirParams) (x y z : Nat) : Nat :=
  p.xStride * (x / p.xBlockSize) + p.yStride * (y / p.yBlockSize) +
    p.zStride * (z / p.zBlockSize)

/-- The function `Directory.get_block_size`: boundary-aware block shape, reported in
`(z, y, x)` order. -/
def get_block_size (p : DirParams) (x y z : Nat) : Nat × Nat × Nat :=
  (min (p.zExtent - z) p.zBlockSize,
   min (p.yExtent - y) p.yBlockSize,
   min (p.xExtent - x) p.xBlockSize)

/-- The number of blocks in the grid,
`ceil(X/bx) * ceil(Y/by) * ceil(Z/bz)`. -/
def n_blocks (p : DirParams) : Nat :=
  ((p.xExtent + p.xBlockSize - 1) / p.xBlockSize) *
    ((p.yExtent + p.yBlockSize - 1) / p.yBlockSize) *
    ((p.zExtent + p.zBlockSize - 1) / p.zBlockSize)

/-- The payload `BlockWriter.write` enqueues for a shard writer: the block's
flattened voxel data (already cast to the store's dtype) and the directory
offset it is destined for (`WriterMessage` in `src/blockfs/writer.py`). -/
structure WriterMessage where
  data : List Nat
  directoryOffset : Nat
deriving Repr, DecidableEq

/-- The function `Directory.write_block`: asserts
`tuple(block.shape) == self.get_block_size(x, y, z)` and then enqueues the
block on shard `offsetof(x,y,z) % len(writers)`.  `none` models the
`AssertionError` raised before anything is enqueued; `some (idx, msg)` is
the shard index and the enqueued message.  No alignment check appears in
the source. -/
def write_block (p : DirParams) (shape : Nat × Nat × Nat) (data : List Nat)
    (x y z : Nat) : Option (Nat × WriterMessage) :=
  if shape = get_block_size p x y z then
    some (offsetof p x y z % p.nFilenames, ⟨data, offsetof p x y z⟩)
  else
    none

/-- C4 failing input: `X = 2, bx = 1` (so the default y stride is 2) and
`Y = 1, by = 2`.  The source computes
`z_stride = (2*1 + 2 - 1) // 2 = 1`, while the spec's
`sy * ceil(Y/by) = 2 * 1 = 2`. -/
theorem default_z_stride_diverges :
    default_y_stride 2 1 = 2 ∧
    default_z_stride (default_y_stride 2 1) 1 2 = 1 ∧
    spec_default_z_stride (default_y_stride 2 1) 1 2 = 2 := by decide

/-- A store with extents `(2, 1, 2)`, block sizes `(1, 2, 1)`, default
strides (which come out as `(1, 2, 1)`), 8+8 bit entries (2-byte), one
shard file, and the directory table at byte 16 (empty JSON metadata). -/
def collideP : DirParams := mkDefaultParams 2 1 2 1 2 1 8 8 16 1

/-- C3 failing input: with the default strides of `collideP`, the distinct
in-grid block coordinates `(1,0,0)` and `(0,0,1)` both map to directory
offset 1, so the map from the 4-block grid onto `[0, 4)` is not injective,
hence not a bijection. -/
theorem default_offset_map_not_bijective :
    collideP.xStride = 1 ∧ collideP.yStride = 2 ∧ collideP.zStride = 1 ∧
    offsetof collideP 1 0 0 = 1 ∧ offsetof collideP 0 0 1 = 1 ∧
    n_blocks collideP = 4 ∧
    ¬ Function.Injective (fun c : Fin 2 × Fin 1 × Fin 2 =>
        offsetof collideP (c.1 * collideP.xBlockSize)
          (c.2.1 * collideP.yBlockSize) (c.2.2 * collideP.zBlockSize)) := by
  refine ⟨by decide, by decide, by decide, by decide, by decide, by decide, ?_⟩
  intro hinj
  have hcollide : ((1, 0, 0) : Fin 2 × Fin 1 × Fin 2) = (0, 0, 1) :=
    hinj (by decide)
  exact absurd hcollide (by decide)

/-- C5 counterexample: at `(x, y, z) = (1, 0, 0)` in a `1024³` store with
`64³` blocks, the coordinate is not block-aligned, yet a `(64, 64, 64)`
block passes `write_block`'s only check (the shape assertion) and is
enqueued — no bounds error occurs. -/
theorem write_block_misaligned_accepted :
    1 % entryP.xBlockSize ≠ 0 ∧
    write_block entryP (64, 64, 64) [] 1 0 0 = some (0, ⟨[], 0⟩) := by decide

/-- C5 amended: `write_block` fails (with `AssertionError`, enqueuing
nothing) exactly when the supplied block's shape differs from
`get_block_size(x, y, z)`; alignment of `(x, y, z)` is never checked. -/
theorem write_block_shape_check (p : DirParams) (shape : Nat × Nat × Nat)
    (data : List Nat) (x y z : Nat) :
    write_block p shape data x y z = none ↔ shape ≠ get_block_size p x y z := by
  by_cases h : shape = get_block_size p x y z <;> simp [write_block, h]

/-- The loop of `block_writer_process` (`src/blockfs/writer.py`): starting
from the current shard-file content and the tracked `position`, process the
shard's FIFO of messages.  Each step compresses the payload (`enc`),
appends it to the file, emits the publication record
`(directory_offset, position, count)` on the outbound queue, and advances
`position` by `count`.  Returns the final file content and the emitted
records in emission order. -/
def block_writer_process (enc : List Nat → List Nat) :
    List WriterMessage → List Nat → Nat → List Nat × List (Nat × Nat × Nat)
  | [], file, _ => (file, [])
  | msg :: rest, file, position =>
    let block := enc msg.data
    let count := block.length
    let result := block_writer_process enc rest (file ++ block) (position + count)
    (result.1, (msg.directoryOffset, position, count) :: result.2)

/-- The shard-file length just before each successive write: the shard
file position the writer would observe before appending each payload. -/
def fileLengthsBefore (enc : List Nat → List Nat) :
    List Nat → List WriterMessage → List Nat
  | _, [] => []
  | file, msg :: rest => file.length :: fileLengthsBefore enc (file ++ enc msg.data) rest

theorem block_writer_offsets (enc : List Nat → List Nat) :
    ∀ (msgs : List WriterMessage) (file : List Nat),
      ((block_writer_process enc msgs file file.length).2.map fun r => r.2.1) =
        fileLengthsBefore enc file msgs := by
  intro msgs
  induction msgs with
  | nil => intro file; simp [block_writer_process, fileLengthsBefore]
  | cons msg rest ih =>
      intro file
      have hlen : file.length + (enc msg.data).length = (file ++ enc msg.data).length := by
        simp
      simp only [block_writer_process, fileLengthsBefore, List.map_cons, hlen,
        ih (file ++ enc msg.data)]

theorem block_writer_chain (enc : List Nat → List Nat)
    (hpos : ∀ a, 0 < (enc a).length) :
    ∀ (msgs : List WriterMessage) (file : List Nat) (position : Nat),
      List.Chain' (fun r s => r.2.1 < s.2.1 ∧ r.2.1 + r.2.2 ≤ s.2.1)
        (block_writer_process enc msgs file position).2 := by
  intro msgs
  induction msgs with
  | nil => intro file position; simp [block_writer_process]
  | cons msg rest ih =>
      intro file position
      simp only [block_writer_process]
      rw [List.chain'_cons']
      refine ⟨?_, ih _ _⟩
      intro s hs
      cases rest with
      | nil => simp [block_writer_process] at hs
      | cons msg2 rest2 =>
          simp only [block_writer_process, List.head?_cons, Option.mem_def,
            Option.some.injEq] at hs
          subst hs
          exact ⟨Nat.lt_add_of_pos_right (hpos msg.data), le_rfl⟩

/-- C8: for the messages one shard writer processes (starting at the end
of its file, `position = file.length`), the emitted records
`(directory_offset, file_offset, byte_count)` have strictly increasing
`file_offset` with `file_offset_k + byte_count_k ≤ file_offset_{k+1}` for
consecutive records, and the list of emitted `file_offset`s is exactly the
list of shard-file lengths just before each write.  The hypothesis is the
fact the code relies on: Blosc never produces an empty encoding (its
header alone is 16 bytes). -/
theorem block_writer_monotone (enc : List Nat → List Nat)
    (hpos : ∀ a, 0 < (enc a).length)
    (msgs : List WriterMessage) (file : List Nat) :
    List.Chain' (fun r s => r.2.1 < s.2.1 ∧ r.2.1 + r.2.2 ≤ s.2.1)
      (block_writer_process enc msgs file file.length).2 ∧
    ((block_writer_process enc msgs file file.length).2.map fun r => r.2.1) =
      fileLengthsBefore enc file msgs :=
  ⟨block_writer_chain enc hpos msgs file file.length,
   block_writer_offsets enc msgs file⟩

theorem block_writer_monotone_witness :
    List.Chain' (fun r s => r.2.1 < s.2.1 ∧ r.2.1 + r.2.2 ≤ s.2.1)
      (block_writer_process (fun a => 0 :: a) [⟨[5], 3⟩, ⟨[6, 6], 1⟩]
        ([] : List Nat) (List.length ([] : List Nat))).2 ∧
    ((block_writer_process (fun a => 0 :: a) [⟨[5], 3⟩, ⟨[6, 6], 1⟩]
        ([] : List Nat) (List.length ([] : List Nat))).2.map fun r => r.2.1) =
      fileLengthsBefore (fun a => 0 :: a) ([] : List Nat) [⟨[5], 3⟩, ⟨[6, 6], 1⟩] :=
  block_writer_monotone (fun a => 0 :: a) (fun a => Nat.succ_pos a.length)
    [⟨[5], 3⟩, ⟨[6, 6], 1⟩] ([] : List Nat)

/-- Seek-and-write (`fd.seek(position); fd.write(data)`) on a byte file: bytes before
`position` are kept, a seek past the current end fills the gap with zero
bytes (sparse-file semantics), `data` is written at `position`, and any
bytes after the written range are kept. -/
def writeAt (file : List Nat) (position : Nat) (data : List Nat) : List Nat :=
  (file.take position ++ List.replicate (position - file.length) 0) ++
    (data ++ file.drop (position + data.length))

/-- One iteration of `Directory.directory_writer_process`: for a queue
message `(directory_offset, offset, size)`, seek to
`self.directory_offset + directory_offset * self.directory_entry_size` and
write the `directory_entry_size`-byte encoding of `(offset, size)`. -/
def directory_writer_process (p : DirParams) (file : List Nat)
    (msg : Nat × Nat × Nat) : List Nat :=
  writeAt file (p.directoryOffset + msg.1 * directory_entry_size p)
    (encode_directory_entry p msg.2.1 msg.2.2)

/-- The full `directory_writer_process` loop over a queue of messages
(the `None` sentinel ends the list). -/
def directory_writer_run (p : DirParams) :
    List (Nat × Nat × Nat) → List Nat → List Nat
  | [], file => file
  | msg :: rest, file => directory_writer_run p rest (directory_writer_process p file msg)

theorem getD_replicate_zero (n k : Nat) : (List.replicate n 0).getD k 0 = 0 := by
  rcases lt_or_ge k n with h | h
  · simp [List.getD_eq_getElem?_getD, List.getElem?_replicate, h]
  · exact List.getD_eq_default _ _ (by simpa using h)

theorem take_pad_length (file : List Nat) (position : Nat) :
    (file.take position ++ List.replicate (position - file.length) 0).length =
      position := by
  simp only [List.length_append, List.length_take, List.length_replicate]
  omega

theorem writeAt_length (file : List Nat) (position : Nat) (data : List Nat) :
    (writeAt file position data).length =
      max file.length (position + data.length) := by
  simp only [writeAt, List.length_append, List.length_take, List.length_replicate,
    List.length_drop]
  omega

theorem writeAt_getD (file : List Nat) (position : Nat) (data : List Nat)
    (j : Nat) :
    (writeAt file position data).getD j 0 =
      if position ≤ j ∧ j < position + data.length then data.getD (j - position) 0
      else file.getD j 0 := by
  unfold writeAt
  rcases lt_or_ge j position with hj | hj
  · rw [if_neg (by omega)]
    rw [List.getD_append _ _ _ _ (by rw [take_pad_length]; omega)]
    rcases lt_or_ge j (file.take position).length with hj2 | hj2
    · rw [List.getD_append _ _ _ _ hj2]
      simp only [List.length_take] at hj2
      simp [List.getD_eq_getElem?_getD, List.getElem?_take, hj]
    · rw [List.getD_append_right _ _ _ _ hj2, getD_replicate_zero]
      simp only [List.length_take] at hj2
      exact (List.getD_eq_default _ _ (by omega)).symm
  · rw [List.getD_append_right _ _ _ _ (by rw [take_pad_length]; omega),
        take_pad_length]
    rcases lt_or_ge j (position + data.length) with hj2 | hj2
    · rw [if_pos ⟨hj, hj2⟩]
      exact List.getD_append _ _ _ _ (by omega)
    · rw [if_neg (by omega), List.getD_append_right _ _ _ _ (by omega)]
      rcases lt_or_ge j file.length with hj3 | hj3
      · simp only [List.getD_eq_getElem?_getD, List.getElem?_drop]
        have harith : position + data.length + (j - position - data.length) = j := by
          omega
        rw [harith]
      · rw [List.getD_eq_default _ _ (by simp; omega),
            List.getD_eq_default _ _ (by omega)]

theorem writeAt_read_back (file : List Nat) (position : Nat) (data : List Nat) :
    ((writeAt file position data).drop position).take data.length = data := by
  have h1 : (writeAt file position data).drop position =
      data ++ file.drop (position + data.length) := by
    unfold writeAt
    have h2 := take_pad_length file position
    calc ((file.take position ++ List.replicate (position - file.length) 0) ++
            (data ++ file.drop (position + data.length))).drop position
        = ((file.take position ++ List.replicate (position - file.length) 0) ++
            (data ++ file.drop (position + data.length))).drop
            (file.take position ++ List.replicate (position - file.length) 0).length := by
          rw [h2]
      _ = data ++ file.drop (position + data.length) := List.drop_left _ _
  rw [h1]
  have h3 : data.length = List.length data := rfl
  calc (data ++ file.drop (position + data.length)).take data.length
      = data := List.take_left _ _

/-- C9: consuming one publication record `(dir_offset, file_offset,
byte_count)`, the index writer writes exactly `directory_entry_size` bytes
— the packed encoding of `(file_offset, byte_count)` — at byte position
`directory_offset + dir_offset * directory_entry_size` of the index file,
leaves every byte outside that range unchanged (reading absent bytes as
zero), and grows the file only as far as the written entry requires. -/
theorem directory_writer_entry (p : DirParams) (file : List Nat)
    (dirOffset fileOffset byteCount : Nat) :
    ((directory_writer_process p file (dirOffset, fileOffset, byteCount)).drop
        (p.directoryOffset + dirOffset * directory_entry_size p)).take
        (directory_entry_size p) =
      encode_directory_entry p fileOffset byteCount ∧
    (directory_writer_process p file (dirOffset, fileOffset, byteCount)).length =
      max file.length
        (p.directoryOffset + dirOffset * directory_entry_size p +
          directory_entry_size p) ∧
    ∀ j, j < p.directoryOffset + dirOffset * directory_entry_size p ∨
        p.directoryOffset + dirOffset * directory_entry_size p +
          directory_entry_size p ≤ j →
      (directory_writer_process p file (dirOffset, fileOffset, byteCount)).getD j 0 =
        file.getD j 0 := by
  have hlen : (encode_directory_entry p fileOffset byteCount).length =
      directory_entry_size p := by
    rw [encode_directory_entry, encodeBytes_length]
  have hstep : directory_writer_process p file (dirOffset, fileOffset, byteCount) =
      writeAt file (p.directoryOffset + dirOffset * directory_entry_size p)
        (encode_directory_entry p fileOffset byteCount) := rfl
  refine ⟨?_, ?_, ?_⟩
  · have := writeAt_read_back file
      (p.directoryOffset + dirOffset * directory_entry_size p)
      (encode_directory_entry p fileOffset byteCount)
    rw [hlen] at this
    rw [hstep]
    exact this
  · rw [hstep, writeAt_length, hlen]
  · intro j hj
    rw [hstep, writeAt_getD, hlen, if_neg (by omega)]

theorem directory_writer_entry_witness :
    ((directory_writer_process entryP [1, 2, 3] (1, 10, 20)).drop
        (entryP.directoryOffset + 1 * directory_entry_size entryP)).take
        (directory_entry_size entryP) =
      encode_directory_entry entryP 10 20 ∧
    (directory_writer_process entryP [1, 2, 3] (1, 10, 20)).length =
      max (List.length [1, 2, 3])
        (entryP.directoryOffset + 1 * directory_entry_size entryP +
          directory_entry_size entryP) ∧
    ∀ j, j < entryP.directoryOffset + 1 * directory_entry_size entryP ∨
        entryP.directoryOffset + 1 * directory_entry_size entryP +
          directory_entry_size entryP ≤ j →
      (directory_writer_process entryP [1, 2, 3] (1, 10, 20)).getD j 0 =
        List.getD [1, 2, 3] j 0 :=
  directory_writer_entry entryP [1, 2, 3] 1 10 20

/-- An all-zero block (`np.zeros(shape, dtype)`) for a 3-D shape: a flat list of
`shape.1 * shape.2.1 * shape.2.2` zero voxels. -/
def zeroVoxels (shape : Nat × Nat × Nat) : List Nat :=
  List.replicate (shape.1 * shape.2.1 * shape.2.2) 0

/-- The function `Directory.read_block`: compute the directory offset and shard index,
return zeros when the index file is too short to hold the entry, decode
the entry, return zeros when the decoded size is zero, otherwise read
`size` bytes at `offset` of the selected shard file and decompress
(`dec`).  The result is the pair (shape from `get_block_size`, flattened
voxel data). -/
def read_block (p : DirParams) (indexFile : List Nat)
    (shards : List (List Nat)) (dec : List Nat → List Nat) (x y z : Nat) :
    (Nat × Nat × Nat) × List Nat :=
  let offset := offsetof p x y z
  let shape := get_block_size p x y z
  let idx := offset % p.nFilenames
  let entryPos := p.directoryOffset + offset * directory_entry_size p
  if indexFile.length < entryPos + directory_entry_size p then
    (shape, zeroVoxels shape)
  else
    let entry := (indexFile.drop entryPos).take (directory_entry_size p)
    let decoded := decode_directory_entry p entry
    if decoded.2 = 0 then
      (shape, zeroVoxels shape)
    else
      (shape, dec (((shards.getD idx []).drop decoded.1).take decoded.2))

/-- C6: `read_block` at a block-aligned in-extent coordinate whose entry
either lies past the end of the index file or decodes to size zero
returns (no error) an all-zero array of shape `get_block_size(x, y, z)`,
and that shape is `(min(bz, Z-z), min(by, Y-y), min(bx, X-x))`. -/
theorem read_block_unwritten (p : DirParams) (indexFile : List Nat)
    (shards : List (List Nat)) (dec : List Nat → List Nat) (x y z : Nat)
    (h : indexFile.length <
        p.directoryOffset + offsetof p x y z * directory_entry_size p +
          directory_entry_size p ∨
      (decode_directory_entry p
        ((indexFile.drop
            (p.directoryOffset + offsetof p x y z * directory_entry_size p)).take
          (directory_entry_size p))).2 = 0) :
    read_block p indexFile shards dec x y z =
      (get_block_size p x y z, zeroVoxels (get_block_size p x y z)) ∧
    get_block_size p x y z =
      (min p.zBlockSize (p.zExtent - z), min p.yBlockSize (p.yExtent - y),
        min p.xBlockSize (p.xExtent - x)) := by
  constructor
  · by_cases h1 : indexFile.length <
        p.directoryOffset + offsetof p x y z * directory_entry_size p +
          directory_entry_size p
    · simp only [read_block, if_pos h1]
    · rcases h with h | h
      · exact absurd h h1
      · simp only [read_block, if_neg h1, if_pos h]
  · simp only [get_block_size, Nat.min_comm]

theorem read_block_unwritten_witness :
    read_block entryP [] [] (fun a => a) 0 0 0 =
      (get_block_size entryP 0 0 0, zeroVoxels (get_block_size entryP 0 0 0)) ∧
    get_block_size entryP 0 0 0 =
      (min entryP.zBlockSize (entryP.zExtent - 0),
        min entryP.yBlockSize (entryP.yExtent - 0),
        min entryP.xBlockSize (entryP.xExtent - 0)) :=
  read_block_unwritten entryP [] [] (fun a => a) 0 0 0 (Or.inl (by decide))

/-- The eight bytes of `Directory.HEADER`: the ASCII codes of `B l o c k F S`
followed by a zero byte. -/
def HEADER : List Nat := [66, 108, 111, 99, 107, 70, 83, 0]

/-- The four bytes of a value cast to `np.uint32` and stored
little-endian (byte `i` is `(n / 256^i) % 256`). -/
def u32le_bytes (n : Nat) : List Nat :=
  [n % 256, n / 256 % 256, n / 65536 % 256, n / 16777216 % 256]

/-- The function `Directory.create`: compute
`directory_offset = len(HEADER) + 8 + len(json_md)` and write the header,
the two `uint32` values `(len(json_md), directory_offset)` and the JSON
metadata bytes.  Returns the stored `directory_offset` and the file
content. -/
def create (jsonMd : List Nat) : Nat × List Nat :=
  let dirOffset := HEADER.length + 8 + jsonMd.length
  (dirOffset,
   HEADER ++ (u32le_bytes jsonMd.length ++ (u32le_bytes dirOffset ++ jsonMd)))

theorem bytesValue_u32le (n : Nat) (h : n < 2 ^ 32) :
    bytesValue (u32le_bytes n) = n := by
  simp only [u32le_bytes, bytesValue]
  omega

/-- C7: the index file written by `create` starts with the 8 ASCII bytes
`"BlockFS\0"`, followed by two little-endian unsigned 32-bit integers
holding the metadata byte length and `index_base = 8 + 8 + len(metadata)`,
followed by the metadata bytes, and nothing more (no directory-entry
space is preallocated). -/
theorem create_layout (jsonMd : List Nat)
    (h : 16 + jsonMd.length < 2 ^ 32) :
    (create jsonMd).2.take 8 = HEADER ∧
    bytesValue (((create jsonMd).2.drop 8).take 4) = jsonMd.length ∧
    bytesValue (((create jsonMd).2.drop 12).take 4) = (create jsonMd).1 ∧
    (create jsonMd).1 = 8 + 8 + jsonMd.length ∧
    (create jsonMd).2.drop 16 = jsonMd ∧
    (create jsonMd).2.length = 16 + jsonMd.length := by
  have hdir : (create jsonMd).1 = 8 + 8 + jsonMd.length := rfl
  have hfile : (create jsonMd).2 =
      HEADER ++ (u32le_bytes jsonMd.length ++
        (u32le_bytes (8 + 8 + jsonMd.length) ++ jsonMd)) := rfl
  refine ⟨?_, ?_, ?_, hdir, ?_, ?_⟩
  · rw [hfile]
    exact List.take_left' (by rfl)
  · rw [hfile, List.drop_left' (show HEADER.length = 8 from rfl),
      List.take_left' (show (u32le_bytes jsonMd.length).length = 4 from rfl)]
    exact bytesValue_u32le _ (by omega)
  · rw [hfile, show (12 : Nat) = HEADER.length + 4 from rfl, List.drop_append,
      List.drop_left' (show (u32le_bytes jsonMd.length).length = 4 from rfl),
      List.take_left'
        (show (u32le_bytes (8 + 8 + jsonMd.length)).length = 4 from rfl), hdir]
    exact bytesValue_u32le _ (by omega)
  · rw [hfile, show (16 : Nat) = HEADER.length + 8 from rfl, List.drop_append,
      show (8 : Nat) = (u32le_bytes jsonMd.length).length + 4 from rfl,
      List.drop_append]
    exact List.drop_left' (show (u32le_bytes (8 + 8 + jsonMd.length)).length = 4 from rfl)
  · rw [hfile]
    simp [HEADER, u32le_bytes]
    omega

theorem create_layout_witness :
    (create [123, 125]).2.take 8 = HEADER ∧
    bytesValue (((create [123, 125]).2.drop 8).take 4) =
      List.length [123, 125] ∧
    bytesValue (((create [123, 125]).2.drop 12).take 4) = (create [123, 125]).1 ∧
    (create [123, 125]).1 = 8 + 8 + List.length [123, 125] ∧
    (create [123, 125]).2.drop 16 = [123, 125] ∧
    (create [123, 125]).2.length = 16 + List.length [123, 125] :=
  create_layout [123, 125] (by norm_num)

/-- One `write_block` request: the block's shape (as numpy reports it, in
`(z, y, x)` order), its flattened voxel data, and the voxel coordinate. -/
structure WriteReq where
  shape : Nat × Nat × Nat
  data : List Nat
  x : Nat
  y : Nat
  z : Nat
deriving Repr, DecidableEq

/-- Run a sequence of `write_block` calls, collecting the enqueued
`(shard index, message)` pairs in call order; `none` if any call fails its
shape assertion. -/
def enqueue_writes (p : DirParams) : List WriteReq → Option (List (Nat × WriterMessage))
  | [] => some []
  | w :: rest =>
    match write_block p w.shape w.data w.x w.y w.z, enqueue_writes p rest with
    | some m, some ms => some (m :: ms)
    | _, _ => none

/-- The effect of `Directory.close` in the sequential model: each shard writer drains
its FIFO (the enqueued messages routed to it, in order) starting from an
empty shard file, then the index writer consumes every publication
record.  Returns the final index file and the shard files. -/
def close_store (p : DirParams) (enc : List Nat → List Nat)
    (indexFile0 : List Nat) (enqueued : List (Nat × WriterMessage)) :
    List Nat × List (List Nat) :=
  let runs := (List.range p.nFilenames).map fun s =>
    block_writer_process enc
      ((enqueued.filter fun e => e.1 == s).map fun e => e.2) [] 0
  (directory_writer_run p ((runs.map fun r => r.2).flatten) indexFile0,
   runs.map fun r => r.1)

/-- The full pipeline: `create`, a sequence of `write_block` calls, then
`close`. -/
def write_then_close (p : DirParams) (enc : List Nat → List Nat)
    (jsonMd : List Nat) (writes : List WriteReq) :
    Option (List Nat × List (List Nat)) :=
  match enqueue_writes p writes with
  | none => none
  | some enqueued => some (close_store p enc (create jsonMd).2 enqueued)

/-- C1 failing input: in the store `collideP` (extents `(2,1,2)`, blocks
`(1,2,1)`, default strides, one shard, empty JSON metadata so the
directory table starts at byte 16), write `[7]` at `(1,0,0)` and `[9]` at
`(0,0,1)` — two distinct block-aligned in-extent coordinates with
correctly shaped `(1,1,1)` blocks — then close.  Both coordinates collide
on directory offset 1, so `read_block(1,0,0)` returns `[9]`, not the `[7]`
written there.  The codec is the identity (the statement needs only some
round-tripping codec). -/
theorem write_then_read_clobbered :
    (write_then_close collideP (fun a => a) []
        [⟨(1, 1, 1), [7], 1, 0, 0⟩, ⟨(1, 1, 1), [9], 0, 0, 1⟩]).map
        (fun files => read_block collideP files.1 files.2 (fun a => a) 1 0 0) =
      some ((1, 1, 1), [9]) ∧
    ([9] : List Nat) ≠ [7] ∧
    (1, 0, 0) ≠ ((0, 0, 1) : Nat × Nat × Nat) := by decide
